import Mathlib

/-!
Verification of the `wise` agent loop (github.com/j0lvera/wise).

The development shallowly embeds the core of the repository:
  * the Go string helpers the agent relies on (`strings.TrimSpace`,
    `strings.SplitN(s, "\n", 2)`) over `List Char`,
  * the bash-fence action parser `ParseAction` from `src/agent/config.go`,
    including an executable model of the Go regexp
    `(?s)` + three backticks + `bash\s*\n(.*?)\n` + three backticks
    with RE2 leftmost-first / greedy-`\s*` / lazy-capture semantics,
  * the blocklist validator `Validate` and `BashExecutor.Execute` from
    `src/agent/executor.go` (the process spawn itself is an oracle input:
    a `ProcResult` describing what `cmd.Run()` produced),
  * the loop controller `Run` / `Step` / `handleOutput` /
    `formatObservation` from `src/agent.go` (package wise), with the model
    query and the environment as pure oracles.

Strings are embedded as `List Char` (Go indexes bytes; the two views agree
on ASCII data, which is all the fixed texts of the program use).
Logging and the streaming output sink are fire-and-forget side effects
with no observable influence on the loop state and are not modelled.
-/

namespace Wise

/-- Strings of the embedded program, as lists of characters. -/
abbrev Str := List Char

/-- Whitespace as trimmed by Go `strings.TrimSpace` (`unicode.IsSpace`),
restricted to the Latin-1 range: `\t \n \v \f \r ' '  U+0085 U+00A0`. -/
def goIsSpace (c : Char) : Bool :=
  c == ' ' || c == '\t' || c == '\n' || c == '\x0b' || c == '\x0c' ||
  c == '\r' || c == '\x85' || c == '\xa0'

/-- Whitespace of the RE2 character class `\s` = `[\t\n\f\r ]`. -/
def re2IsSpace (c : Char) : Bool :=
  c == ' ' || c == '\t' || c == '\n' || c == '\x0c' || c == '\r'

/-- Left half of Go `strings.TrimSpace`. -/
def trimLeft (s : Str) : Str := s.dropWhile goIsSpace

/-- Right half of Go `strings.TrimSpace`. -/
def trimRight (s : Str) : Str := (s.reverse.dropWhile goIsSpace).reverse

/-- Go `strings.TrimSpace`. -/
def trimSpace (s : Str) : Str := trimRight (trimLeft s)

/-- Go `strings.SplitN(s, "\n", 2)`: the part before the first newline,
and `some` of the part after it when a newline exists. -/
def splitOnceNl : Str → Str × Option Str
  | [] => ([], none)
  | c :: cs =>
    if c = '\n' then ([], some cs)
    else ((splitOnceNl cs).1.cons c, (splitOnceNl cs).2)

/-- The first line of a string (before the first `'\n'`, or all of it). -/
def firstLine (s : Str) : Str := (splitOnceNl s).1

/-- Everything after the first newline of a string (empty when none). -/
def lineRest (s : Str) : Str := (splitOnceNl s).2.getD []

/-- `startsWith s pat`: `pat` is an initial segment of `s`. -/
def startsWith : Str → Str → Bool
  | _, [] => true
  | [], _ :: _ => false
  | c :: cs, p :: ps => c == p && startsWith cs ps

/-- First occurrence of `pat` inside a string: `some (before, after)` splits
the string around the leftmost occurrence. -/
def findSub (pat : Str) : Str → Option (Str × Str)
  | [] => if startsWith [] pat then some ([], []) else none
  | c :: cs =>
    if startsWith (c :: cs) pat then some ([], (c :: cs).drop pat.length)
    else
      match findSub pat cs with
      | some (pre, rest) => some (pre.cons c, rest)
      | none => none

/-- Decimal digits of a natural number, as Go `fmt.Sprintf("%d", n)`. -/
def natDec (n : Nat) : Str := Nat.toDigits 10 n

/-- Go `fmt.Sprintf("%d", i)` for a (possibly negative) integer. -/
def intDec (i : Int) : Str :=
  if i < 0 then '-' :: Nat.toDigits 10 i.natAbs else Nat.toDigits 10 i.toNat

/-! ## The bash-fence regular expression

`src/agent/config.go` compiles
`(?s)` + "```bash" + `\s*\n(.*?)\n` + "```"
and calls `FindAllStringSubmatch(response, -1)`.  The functions below model
the RE2 engine on exactly this pattern: a match starts at an occurrence of
the literal "```bash"; `\s*` greedily consumes RE2-whitespace but must be
followed by a literal newline (backtracking from the longest whitespace run
down); the capture is lazy, so it ends at the first following occurrence of
"\n```"; `FindAll` resumes after the end of each match. -/

/-- Positions `j` such that the character at `j` is `'\n'` and every
character before `j` is RE2 whitespace: the candidate split points for
`\s*` + `\n`, in increasing order. -/
def nlCandidates : Str → List Nat
  | [] => []
  | c :: cs =>
    if re2IsSpace c then
      if c = '\n' then 0 :: (nlCandidates cs).map (· + 1)
      else (nlCandidates cs).map (· + 1)
    else []

/-- Try the candidate newline positions in the given order (greedy `\s*` =
longest first); for each, the lazy capture ends at the first following
"\n```".  Returns the capture and the text after the closing fence. -/
def tryNls (t : Str) : List Nat → Option (Str × Str)
  | [] => none
  | j :: js =>
    match findSub ("\n```".toList) (t.drop (j + 1)) with
    | some (cap, rest) => some (cap, rest)
    | none => tryNls t js

/-- Match `\s*\n(.*?)\n` + "```" at the start of `t`. -/
def matchAfterBash (t : Str) : Option (Str × Str) :=
  tryNls t (nlCandidates t).reverse

/-- Leftmost match of the whole fence pattern: the capture of the first
position where "```bash" occurs and the tail of the pattern matches,
together with the text after the match. -/
def firstMatch : Str → Option (Str × Str)
  | [] => none
  | c :: cs =>
    if startsWith (c :: cs) ("```bash".toList) then
      match matchAfterBash ((c :: cs).drop 7) with
      | some r => some r
      | none => firstMatch cs
    else firstMatch cs

/-- All captures of successive non-overlapping matches, fuelled (each match
consumes at least one character, so `length + 1` fuel is never exhausted). -/
def findAllSubmatch : Nat → Str → List Str
  | 0, _ => []
  | fuel + 1, s =>
    match firstMatch s with
    | none => []
    | some (cap, rest) => cap :: findAllSubmatch fuel rest

/-- The captures of `commandRegex.FindAllStringSubmatch(response, -1)`. -/
def findAllCaps (s : Str) : List Str := findAllSubmatch (s.length + 1) s

/-! ## Actions, recoverable errors, and the parser (`src/agent/config.go`,
`src/errors.go`) -/

/-- `ActionTypeBash`: the single supported action kind (a Go string). -/
def ActionTypeBash : Str := "bash".toList

/-- An `Action` as parsed from a model reply (`Type` is a Go string). -/
structure Action where
  type : Str
  command : Str
deriving DecidableEq, Repr

/-- `ProcessErrType` from `src/errors.go`: format, timeout, execution.
(The enum has no separate "blocked" member.) -/
inductive ProcessErrType where
  | format
  | timeout
  | execution
deriving DecidableEq, Repr

/-- Recoverable `ProcessErr`: the agent adds the message as feedback and
continues the loop. -/
structure ProcessErr where
  type : ProcessErrType
  message : Str
deriving DecidableEq, Repr

/-- Feedback text when no fenced command is found. -/
def noCmdMsg : Str :=
  "No bash command found. If the task is complete, respond with TASK_COMPLETE. Otherwise, provide exactly one command in ```bash``` block.".toList

/-- Feedback text when several fenced commands are found. -/
def manyCmdMsg (n : Nat) : Str :=
  "Found ".toList ++ natDec n ++
    " commands, expected exactly one. Please provide a single command in ```bash``` block.".toList

/-- Feedback text when the fenced command trims to nothing. -/
def emptyCmdMsg : Str :=
  "Empty command in bash block. Please provide a valid command.".toList

/-- `BashParser.ParseAction` from `src/agent/config.go`: exactly one fence
whose trimmed capture is non-empty yields a bash `Action`; anything else is
a format-kind `ProcessErr`. -/
def ParseAction (response : Str) : Except ProcessErr Action :=
  match findAllCaps response with
  | [] => .error ⟨.format, noCmdMsg⟩
  | [m] =>
    let command := trimSpace m
    if command = [] then .error ⟨.format, emptyCmdMsg⟩
    else .ok ⟨ActionTypeBash, command⟩
  | ms => .error ⟨.format, manyCmdMsg ms.length⟩

/-! ## Outputs (`src/environments/environment.go`, duplicated in package
agent), the blocklist validator, and the executor
(`src/agent/executor.go`) -/

/-- Command execution result (`Output` struct: stdout, stderr, exit code,
timed-out flag). -/
structure Output where
  Stdout : Str
  Stderr : Str
  ExitCode : Int
  TimedOut : Bool
deriving DecidableEq, Repr

/-- The zero value of `Output`. -/
def Output.zero : Output := ⟨[], [], 0, false⟩

/-- `Output.String()` of package agent: stdout, then `"\nstderr: "` +
stderr when stderr is non-empty, then `"\nexit code: %d"` when the exit
code is non-zero. -/
def stringAgent (o : Output) : Str :=
  let r := o.Stdout
  let r := if o.Stderr ≠ [] then r ++ "\nstderr: ".toList ++ o.Stderr else r
  if o.ExitCode ≠ 0 then r ++ "\nexit code: ".toList ++ intDec o.ExitCode else r

/-- A compiled blocklist pattern: its source text (`re.String()`) and its
compiled match function (`re.MatchString`). -/
structure Matcher where
  pattern : Str
  matchString : Str → Bool

/-- `containsSub pat s`: `s` has `pat` as a substring — the matching
function denoted by a regexp that is a literal, such as `mkfs`. -/
def containsSub (pat s : Str) : Bool := (findSub pat s).isSome

/-- The blocklist pattern `mkfs` (a literal, so its compiled matcher is
substring containment). -/
def mkfsMatcher : Matcher := ⟨"mkfs".toList, fun s => containsSub ("mkfs".toList) s⟩

/-- One escaped character of Go `%q` quoting (the printable-ASCII fragment,
which covers every default blocklist pattern). -/
def goQuoteChar (c : Char) : Str :=
  if c = '"' then ['\\', '"']
  else if c = '\\' then ['\\', '\\']
  else if c = '\n' then ['\\', 'n']
  else if c = '\t' then ['\\', 't']
  else if c = '\r' then ['\\', 'r']
  else [c]

/-- Body of Go `%q` quoting. -/
def goQuoteBody : Str → Str
  | [] => []
  | c :: cs => goQuoteChar c ++ goQuoteBody cs

/-- Go `fmt.Sprintf("%q", s)`. -/
def goQuote (s : Str) : Str := '"' :: (goQuoteBody s ++ ['"'])

/-- The message of the error `Validate` returns for a blocked command,
citing the matched pattern. -/
def blockedMsg (pat : Str) : Str :=
  "Command blocked for safety: matches pattern ".toList ++ goQuote pat ++
    ". Please use a safer alternative.".toList

/-- `BlocklistValidator.Validate`: returns an execution-kind `ProcessErr`
on the first pattern that matches, and checks no later pattern. -/
def Validate (patterns : List Matcher) (command : Str) : Option ProcessErr :=
  match patterns with
  | [] => none
  | re :: rest =>
    if re.matchString command then some ⟨.execution, blockedMsg re.pattern⟩
    else Validate rest command

/-- What `cmd.Run()` produced, as an oracle input to `Execute`: captured
stdout/stderr, whether `Run` returned an error and its text, whether the
timeout context expired, and the exit status when the error was an
`exec.ExitError`. -/
structure ProcResult where
  stdout : Str
  stderr : Str
  runErr : Bool
  errText : Str
  deadlineExceeded : Bool
  exitStatus : Option Int
deriving DecidableEq, Repr

/-- `BashExecutor`: timeout (kept as its `%s`-rendered duration text, used
only in the timeout message), working directory (configures the spawned
process, which is the oracle), and optional validator. -/
structure BashExecutor where
  timeout : Str
  workingDir : Str
  validator : Option (List Matcher)

/-- Message of the timeout-kind error, embedding the partial output. -/
def timeoutMsg (timeout : Str) (o : Output) : Str :=
  "Command timed out after ".toList ++ timeout ++ ". Partial output:\n".toList ++
    stringAgent o

/-- Message of the execution-kind error after a failed run. -/
def execFailMsg (errText : Str) (o : Output) : Str :=
  "Command failed: ".toList ++ errText ++ "\nOutput:\n".toList ++ stringAgent o

/-- Fatal and recoverable errors a step can surface, as classified by
`Run` in `src/agent.go`: `TerminatingErr` (reason + final output),
recoverable `ProcessErr`, recoverable `local.ExecutionError` (carried via
its message), and any other (fatal) error. -/
inductive Reason where
  | complete
  | stepLimit
  | costLimit
  | userAbort
deriving DecidableEq, Repr

/-- `local.ExecutionError` kinds (`src/unnamed/part_007`). -/
inductive ExecutionErrorType where
  | timeout
  | execution
  | blocked
deriving DecidableEq, Repr

/-- `local.ExecutionError` (recoverable for the wise controller). -/
structure ExecutionError where
  type : ExecutionErrorType
  message : Str
deriving DecidableEq, Repr

/-- A Go `error` value as the wise controller distinguishes them. -/
inductive GoError where
  | term (reason : Reason) (out : Str)
  | proc (e : ProcessErr)
  | exec (e : ExecutionError)
  | other (msg : Str)
deriving DecidableEq, Repr

/-- The spawn-and-wait phase of `BashExecutor.Execute` (after validation),
turning the oracle `ProcResult` into the returned `Output` and error. -/
def execRun (e : BashExecutor) (proc : ProcResult) : Output × Option GoError :=
  let output : Output := ⟨proc.stdout, proc.stderr, 0, false⟩
  if proc.runErr then
    if proc.deadlineExceeded then
      let output := { output with TimedOut := true }
      (output, some (.proc ⟨.timeout, timeoutMsg e.timeout output⟩))
    else
      let output :=
        match proc.exitStatus with
        | some c => { output with ExitCode := c }
        | none => output
      (output, some (.proc ⟨.execution, execFailMsg proc.errText output⟩))
  else (output, none)

/-- `BashExecutor.Execute`: refuse non-bash actions, then validate, then
run.  Both refusal branches return the zero `Output` and never consult the
process oracle. -/
def Execute (e : BashExecutor) (action : Action) (proc : ProcResult) :
    Output × Option GoError :=
  if action.type ≠ ActionTypeBash then
    (Output.zero, some (.other ("unsupported action type: ".toList ++ action.type)))
  else
    match e.validator with
    | some pats =>
      match Validate pats action.command with
      | some err => (Output.zero, some (.proc err))
      | none => execRun e proc
    | none => execRun e proc

/-- `validatorPasses v cmd`: the configured validator (if any) accepts the
command. -/
def validatorPasses (v : Option (List Matcher)) (cmd : Str) : Bool :=
  match v with
  | none => true
  | some pats => (Validate pats cmd).isNone

/-! ## The loop controller (`src/agent.go`, package wise)

The model query and the environment are pure oracles: a model maps the
conversation so far to a reply (or a fatal query error), an environment
maps an action to an `Output` or an error value.  The ambient context is
never cancelled (none of the verified properties involve cancellation). -/

/-- A conversation message (role and content are Go strings). -/
structure Message where
  role : Str
  content : Str
deriving DecidableEq, Repr

/-- Role constant `"system"`. -/
def RoleSystem : Str := "system".toList

/-- Role constant `"user"`. -/
def RoleUser : Str := "user".toList

/-- Role constant `"assistant"`. -/
def RoleAssistant : Str := "assistant".toList

/-- The completion marker token. -/
def completionMarker : Str := "TASK_COMPLETE".toList

/-- `isTaskComplete`: the first line of the trimmed stdout, itself trimmed,
equals the completion marker. -/
def isTaskComplete (out : Output) : Bool :=
  trimSpace (firstLine (trimSpace out.Stdout)) == completionMarker

/-- `extractFinalOutput`: everything after the first newline of the raw
stdout, trimmed; empty when stdout has no newline. -/
def extractFinalOutput (out : Output) : Str :=
  match (splitOnceNl out.Stdout).2 with
  | some rest => trimSpace rest
  | none => []

/-- The truncation notice inserted between the head and tail slices. -/
def truncNotice : Str := "\n\n[... output truncated ...]\n\n".toList

/-- `formatObservation`: `"(no output)"` for blank stdout with exit code 0;
otherwise stdout, truncated to a 5000-character head and tail around a
notice when longer than 10000, prefixed with the exit code when
non-zero. -/
def formatObservation (o : Output) : Str :=
  if trimSpace o.Stdout = [] ∧ o.ExitCode = 0 then "(no output)".toList
  else
    let result := o.Stdout
    let result :=
      if 10000 < result.length then
        result.take 5000 ++ truncNotice ++ result.drop (result.length - 5000)
      else result
    if o.ExitCode ≠ 0 then
      "[exit code: ".toList ++ intDec o.ExitCode ++ "]\n".toList ++ result
    else result

/-- `handleOutput`: a completion-marked output terminates the loop with
reason complete and the extracted final output, leaving the history
untouched; otherwise the formatted observation is appended as a user
message and the step returns the empty string. -/
def handleOutput (out : Output) (msgs : List Message) :
    Except GoError Str × List Message :=
  if isTaskComplete out then
    (.error (.term .complete (extractFinalOutput out)), msgs)
  else
    (.ok [], msgs ++ [⟨RoleUser, formatObservation out⟩])

/-- A custom action handler: `none` means not handled (fall through to the
environment), otherwise the handler's error or output. -/
def HandlerFn := Action → Option (Except GoError Output)

/-- The collaborators of one agent: parser, optional action handler, model
oracle, and environment oracle. -/
structure Params where
  parserFn : Str → Except ProcessErr Action
  handler : Option HandlerFn
  model : List Message → Except Str Str
  env : Action → Except GoError Output

/-- The default-execution tail of `Step`: run the action through the
environment and hand a successful output to `handleOutput`. -/
def stepExec (p : Params) (action : Action) (msgs1 : List Message) :
    Except GoError Str × List Message :=
  match p.env action with
  | .error e => (.error e, msgs1)
  | .ok out => handleOutput out msgs1

/-- `Step`: query the model, parse (a parse failure leaves the history
unchanged), append the assistant reply, then execute via the custom
handler or the environment. -/
def step (p : Params) (msgs : List Message) : Except GoError Str × List Message :=
  match p.model msgs with
  | .error m => (.error (.other ("query failed: ".toList ++ m)), msgs)
  | .ok response =>
    match p.parserFn response with
    | .error e => (.error (.proc e), msgs)
    | .ok action =>
      let msgs1 := msgs ++ [⟨RoleAssistant, response⟩]
      match p.handler with
      | some h =>
        match h action with
        | some (.error e) => (.error e, msgs1)
        | some (.ok out) => handleOutput out msgs1
        | none => stepExec p action msgs1
      | none => stepExec p action msgs1

/-- What `Run` returns, together with the final history and the number of
model queries made (one per executed step). -/
structure RunResult where
  value : Str
  err : Option GoError
  messages : List Message
  queries : Nat
deriving Repr

/-- The main loop of `Run`: while steps remain, take a step; a terminating
error returns its output with a nil error, recoverable errors append their
message as user feedback and continue, other errors are fatal.  When the
budget is exhausted the last non-terminal response is returned with a
step-limit terminating error. -/
def runLoop (p : Params) : Nat → List Message → Str → Nat → RunResult
  | 0, msgs, lastResponse, queries =>
    ⟨lastResponse, some (.term .stepLimit []), msgs, queries⟩
  | n + 1, msgs, lastResponse, queries =>
    match step p msgs with
    | (.error (.term _ out), msgs') => ⟨out, none, msgs', queries + 1⟩
    | (.error (.proc e), msgs') =>
      runLoop p n (msgs' ++ [⟨RoleUser, e.message⟩]) lastResponse (queries + 1)
    | (.error (.exec e), msgs') =>
      runLoop p n (msgs' ++ [⟨RoleUser, e.message⟩]) lastResponse (queries + 1)
    | (.error (.other m), msgs') => ⟨[], some (.other m), msgs', queries + 1⟩
    | (.ok response, msgs') => runLoop p n msgs' response (queries + 1)

/-- `Run`: reset the history to the system prompt and the task, then loop
up to the maximum step count. -/
def run (p : Params) (maxSteps : Nat) (systemPrompt task : Str) : RunResult :=
  runLoop p maxSteps [⟨RoleSystem, systemPrompt⟩, ⟨RoleUser, task⟩] [] 0

/-- `stepNonTerminalB p msgs`: the step from `msgs` ends in a successful
response or a recoverable error — never a terminating or fatal error. -/
def stepNonTerminalB (p : Params) (msgs : List Message) : Bool :=
  match (step p msgs).1 with
  | .ok _ => true
  | .error (.proc _) => true
  | .error (.exec _) => true
  | .error (.term _ _) => false
  | .error (.other _) => false

/-! ## Construction and defaults (`New` in `src/agent.go`, the config of
`src/agent/config.go` third section) -/

/-- `DefaultSystemPrompt` from the wise config. -/
def DefaultSystemPrompt : Str :=
  "You are an autonomous agent that executes bash commands to complete tasks.\n\nRULES:\n1. You can ONLY execute bash commands by wrapping them in a markdown code block with the 'bash' language tag\n2. Execute ONE command at a time and wait for the output\n3. Use the command output to inform your next action\n4. When the task is complete, output \"TASK_COMPLETE\" followed by a summary on the next line\n\nExample command format:\n```bash\nls -la\n```\n\nExample completion:\n```bash\necho \"TASK_COMPLETE\"\necho \"Summary: Created hello.txt with the requested content\"\n```".toList

/-- An output sink: the discarding sink (`io.Discard`) or some other
writer. -/
inductive OutputSink where
  | discard
  | writer (id : Nat)
deriving DecidableEq, Repr

/-- The wise `Config` (optional settings; the logger, whose only effect is
logging, is not modelled). -/
structure Config where
  parser : Option (Str → Except ProcessErr Action)
  output : Option OutputSink
  maxSteps : Nat
  systemPrompt : Str
  actionHandler : Option HandlerFn

/-- The zero value of `Config`. -/
def zeroConfig : Config := ⟨none, none, 0, [], none⟩

/-- `New`: apply defaults for zero values, in source order — max steps 0
becomes 25, empty system prompt becomes the default prompt, nil output
becomes the discarding sink, nil parser becomes the bash fence parser.
The result is the configuration the constructed agent runs with. -/
def New (cfg : Config) : Config :=
  let cfg1 := if cfg.maxSteps = 0 then { cfg with maxSteps := 25 } else cfg
  let cfg2 :=
    if cfg1.systemPrompt = [] then { cfg1 with systemPrompt := DefaultSystemPrompt }
    else cfg1
  let cfg3 := if cfg2.output.isNone then { cfg2 with output := some .discard } else cfg2
  if cfg3.parser.isNone then { cfg3 with parser := some ParseAction } else cfg3

/-- Run an agent built from a configuration (after `New`, the parser is
always present; `getD` records that invariant). -/
def runWithConfig (cfg : Config) (model : List Message → Except Str Str)
    (env : Action → Except GoError Output) (task : Str) : RunResult :=
  run ⟨cfg.parser.getD ParseAction, cfg.actionHandler, model, env⟩
    cfg.maxSteps cfg.systemPrompt task

/-! ## Fixtures used by the concrete witnesses -/

/-- The claim-side shape of a truncated observation for exit code 0:
head slice, notice, tail slice. -/
def truncatedForm (o : Output) : Str :=
  o.Stdout.take 5000 ++ truncNotice ++ o.Stdout.drop (o.Stdout.length - 5000)

/-- The exit-code prefix of an observation. -/
def exitPrefix (o : Output) : Str :=
  if o.ExitCode ≠ 0 then "[exit code: ".toList ++ intDec o.ExitCode ++ "]\n".toList
  else []

/-- A model reply with no bash fence (its parse always fails). -/
def noFenceResponse : Str := "I cannot help with that.".toList

/-- A model reply with a single bash fence. -/
def fenceResponse : Str := "```bash\nsleep 60\n```".toList

/-- Oracle set whose model never emits a fence: every step is a
recoverable format error. -/
def wParamsNoFence : Params :=
  ⟨ParseAction, none, fun _ => .ok noFenceResponse, fun _ => .ok Output.zero⟩

/-- The stdout produced by `echo "TASK_COMPLETE"` followed by
`echo "Summary: X"`. -/
def completeOut : Output := ⟨"TASK_COMPLETE\nSummary: X\n".toList, [], 0, false⟩

/-- A process-oracle result for a command killed by the deadline. -/
def timeoutProc : ProcResult :=
  ⟨"partial out".toList, [], true, "signal: killed".toList, true, none⟩

/-- An executor with a 30s timeout and no validator. -/
def wExecutor : BashExecutor := ⟨"30s".toList, [], none⟩

/-- An executor with a one-pattern blocklist. -/
def wExecutorBlock : BashExecutor := ⟨"30s".toList, [], some [mkfsMatcher]⟩

/-- Oracle set whose model always replies with a well-formed fence and
whose environment always succeeds with the zero output: every step is a
non-terminal success. -/
def wParamsFence : Params :=
  ⟨ParseAction, none, fun _ => .ok fenceResponse, fun _ => .ok Output.zero⟩

/-- Oracle set whose environment always reports a timeout error. -/
def wParamsTimeout : Params :=
  ⟨ParseAction, none, fun _ => .ok fenceResponse,
    fun _ => .error (.proc ⟨.timeout, "Command timed out".toList⟩)⟩

/-- An all-whitespace stdout longer than the truncation budget. -/
def wsOut : Output := ⟨List.replicate 10001 ' ', [], 0, false⟩

/-- An action of an unsupported kind. -/
def badAction : Action := ⟨"python".toList, "print(1)".toList⟩

/-- A non-blank stdout longer than the truncation budget. -/
def bigOut : Output := ⟨('a' :: List.replicate 9999 'b') ++ ['c'], [], 0, false⟩

/-- An output with a non-zero exit code. -/
def exitErrOut : Output := ⟨"boom".toList, [], 1, false⟩

/-! ## Theorems -/

/-- C2.  `ParseAction` succeeds with the trimmed capture exactly when the
regexp finds exactly one fence whose capture trims non-empty; every other
response yields a format-kind error (zero fences, several fences, or a
blank capture).  `ParseAction` is a Lean function, so it is pure by
construction. -/
theorem c2_parse_action (resp : Str) :
    (∀ a : Action, ParseAction resp = .ok a ↔
      ∃ c, findAllCaps resp = [c] ∧ trimSpace c ≠ [] ∧
        a = ⟨ActionTypeBash, trimSpace c⟩) ∧
    (∀ e : ProcessErr, ParseAction resp = .error e → e.type = .format) ∧
    ((∃ e, ParseAction resp = .error e) ↔
      (findAllCaps resp = [] ∨ 2 ≤ (findAllCaps resp).length ∨
        ∃ c, findAllCaps resp = [c] ∧ trimSpace c = [])) := by
  rcases h : findAllCaps resp with _ | ⟨c, _ | ⟨c2, tl⟩⟩
  · refine ⟨?_, ?_, ?_⟩
    · intro a
      simp [ParseAction, h]
    · intro e he
      simp [ParseAction, h] at he
      simp [← he]
    · simp [ParseAction, h]
  · by_cases hc : trimSpace c = []
    · refine ⟨?_, ?_, ?_⟩
      · intro a
        simp [ParseAction, h, hc]
      · intro e he
        simp [ParseAction, h, hc] at he
        simp [← he]
      · simp [ParseAction, h, hc]
    · refine ⟨?_, ?_, ?_⟩
      · intro a
        simp [ParseAction, h, hc]
        exact eq_comm
      · intro e he
        simp [ParseAction, h, hc] at he
      · simp [ParseAction, h, hc]
  · refine ⟨?_, ?_, ?_⟩
    · intro a
      simp [ParseAction, h]
    · intro e he
      simp [ParseAction, h] at he
      simp [← he]
    · simp [ParseAction, h]

/-- C2 witness: a single well-formed fence parses to its trimmed
command. -/
theorem c2_parse_action_witness :
    ParseAction ("Run this:\n```bash\nls -la\n```\n".toList) =
      .ok ⟨ActionTypeBash, "ls -la".toList⟩ := by
  have h := (c2_parse_action ("Run this:\n```bash\nls -la\n```\n".toList)).1
    ⟨ActionTypeBash, "ls -la".toList⟩
  exact h.mpr ⟨"ls -la".toList, by decide, by decide, by decide⟩

/-- C9.  When `Execute` refuses before spawning — unsupported action kind,
or validator rejection — the returned `Output` is exactly the zero value;
quantifying over every process-oracle result shows the refusal is
independent of anything a process could have produced. -/
theorem c9_refusal_zero_output :
    (∀ (e : BashExecutor) (act : Action) (proc : ProcResult),
      act.type ≠ ActionTypeBash →
      Execute e act proc =
        (Output.zero, some (.other ("unsupported action type: ".toList ++ act.type)))) ∧
    (∀ (e : BashExecutor) (pats : List Matcher) (act : Action)
        (proc : ProcResult) (err : ProcessErr),
      e.validator = some pats →
      act.type = ActionTypeBash →
      Validate pats act.command = some err →
      Execute e act proc = (Output.zero, some (.proc err))) := by
  constructor
  · intro e act proc hty
    simp [Execute, hty]
  · intro e pats act proc err hv hty hval
    simp [Execute, hty, hv, hval]

/-- C9 witness: a non-bash action and a blocked command both yield the zero
`Output`, at a process result that carries non-empty captured output. -/
theorem c9_refusal_zero_output_witness :
    Execute wExecutor badAction timeoutProc =
      (Output.zero, some (.other ("unsupported action type: ".toList ++ badAction.type))) ∧
    Execute wExecutorBlock ⟨ActionTypeBash, "mkfs /dev/sda".toList⟩ timeoutProc =
      (Output.zero, some (.proc ⟨.execution, blockedMsg ("mkfs".toList)⟩)) := by
  constructor
  · exact c9_refusal_zero_output.1 wExecutor badAction timeoutProc (by decide)
  · exact c9_refusal_zero_output.2 wExecutorBlock [mkfsMatcher]
      ⟨ActionTypeBash, "mkfs /dev/sda".toList⟩ timeoutProc
      ⟨.execution, blockedMsg ("mkfs".toList)⟩ rfl rfl (by decide)

/-- `Validate` stops at the first matching pattern and reports it. -/
theorem validate_first (pre post : List Matcher) (m : Matcher) (cmd : Str)
    (hpre : ∀ m' ∈ pre, m'.matchString cmd = false)
    (hm : m.matchString cmd = true) :
    Validate (pre ++ m :: post) cmd = some ⟨.execution, blockedMsg m.pattern⟩ := by
  induction pre with
  | nil => simp [Validate, hm]
  | cons a as ih =>
    have ha := hpre a (List.mem_cons_self a as)
    simp only [List.cons_append, Validate, ha]
    exact ih fun m' hm' => hpre m' (List.mem_cons_of_mem a hm')

/-- C3 counterexample.  The claim says `validate` returns a *BlockedError*.
At the concrete blocked command `mkfs.ext4 /dev/sda1` against the default
pattern `mkfs`, the returned error is a `ProcessErr` whose kind is
`ProcessErrType.execution` — and the `ProcessErrType` enumeration of
`src/errors.go` (format / timeout / execution) has no blocked member at
all, so no blocked-kind error exists for `Validate` to return. -/
theorem c3_blocked_kind_cex :
    Validate [mkfsMatcher] ("mkfs.ext4 /dev/sda1".toList) =
      some ⟨ProcessErrType.execution, blockedMsg ("mkfs".toList)⟩ := by
  decide

/-- C3 (amended).  For every command matching a pattern of the blocklist,
`Validate` returns a recoverable execution-kind `ProcessErr` whose message
says the command was blocked, citing the first matching pattern and asking
for a safer alternative; it never evaluates a later pattern (the result is
unchanged under any replacement of the patterns after the first match);
and `Execute` returns that error with the zero `Output`, identically for
every process-oracle result — no process is spawned. -/
theorem c3_blocklist_amended :
    (∀ (pre post : List Matcher) (m : Matcher) (cmd : Str),
      (∀ m' ∈ pre, m'.matchString cmd = false) →
      m.matchString cmd = true →
      Validate (pre ++ m :: post) cmd = some ⟨.execution, blockedMsg m.pattern⟩) ∧
    (∀ (pre post post' : List Matcher) (m : Matcher) (cmd : Str),
      (∀ m' ∈ pre, m'.matchString cmd = false) →
      m.matchString cmd = true →
      Validate (pre ++ m :: post) cmd = Validate (pre ++ m :: post') cmd) ∧
    (∀ (e : BashExecutor) (pre post : List Matcher) (m : Matcher)
        (act : Action) (proc proc' : ProcResult),
      e.validator = some (pre ++ m :: post) →
      act.type = ActionTypeBash →
      (∀ m' ∈ pre, m'.matchString act.command = false) →
      m.matchString act.command = true →
      Execute e act proc =
        (Output.zero, some (.proc ⟨.execution, blockedMsg m.pattern⟩)) ∧
      Execute e act proc = Execute e act proc') := by
  refine ⟨validate_first, ?_, ?_⟩
  · intro pre post post' m cmd hpre hm
    rw [validate_first pre post m cmd hpre hm, validate_first pre post' m cmd hpre hm]
  · intro e pre post m act proc proc' hv hty hpre hm
    have hval := validate_first pre post m act.command hpre hm
    constructor
    · simp [Execute, hty, hv, hval]
    · simp [Execute, hty, hv, hval]

/-- C3 witness: the amended claim at the default pattern `mkfs` and the
command `mkfs /dev/sda`, with a decoy non-matching pattern before it. -/
theorem c3_blocklist_amended_witness :
    Validate [⟨"shutdown".toList, fun s => containsSub ("shutdown".toList) s⟩,
        mkfsMatcher] ("mkfs /dev/sda".toList) =
      some ⟨.execution, blockedMsg mkfsMatcher.pattern⟩ ∧
    Execute ⟨"30s".toList, [], some [mkfsMatcher]⟩
        ⟨ActionTypeBash, "mkfs /dev/sda".toList⟩ timeoutProc =
      (Output.zero, some (.proc ⟨.execution, blockedMsg mkfsMatcher.pattern⟩)) := by
  constructor
  · exact c3_blocklist_amended.1
      [⟨"shutdown".toList, fun s => containsSub ("shutdown".toList) s⟩] []
      mkfsMatcher ("mkfs /dev/sda".toList) (by decide) (by decide)
  · exact (c3_blocklist_amended.2.2 ⟨"30s".toList, [], some [mkfsMatcher]⟩ [] []
      mkfsMatcher ⟨ActionTypeBash, "mkfs /dev/sda".toList⟩ timeoutProc timeoutProc
      rfl rfl (by decide) (by decide)).1

/-- Dropping whitespace from a run of spaces leaves nothing. -/
theorem dropWhile_replicate_space (n : Nat) :
    List.dropWhile goIsSpace (List.replicate n ' ') = [] := by
  induction n with
  | zero => rfl
  | succ n ih =>
    rw [List.replicate_succ, List.dropWhile_cons, if_pos (by decide)]
    exact ih

/-- A run of spaces trims to the empty string. -/
theorem trimSpace_replicate_space (n : Nat) :
    trimSpace (List.replicate n ' ') = [] := by
  unfold trimSpace trimLeft trimRight
  rw [dropWhile_replicate_space, List.reverse_nil]
  rfl

/-- A string starting with a non-space character is untouched by
`trimLeft`. -/
theorem trimLeft_cons_of_nonspace (c : Char) (s : Str) (hc : goIsSpace c = false) :
    trimLeft (c :: s) = c :: s := by
  unfold trimLeft
  rw [List.dropWhile_cons, if_neg (by simp [hc])]

/-- A string ending with a non-space character is untouched by
`trimRight`. -/
theorem trimRight_append_nonspace (s : Str) (c : Char) (hc : goIsSpace c = false) :
    trimRight (s ++ [c]) = s ++ [c] := by
  unfold trimRight
  rw [List.reverse_append, List.reverse_singleton, List.singleton_append,
    List.dropWhile_cons, if_neg (by simp [hc])]
  simp

/-- C8 counterexample.  The claim asks that *every* stdout longer than the
10000-character budget be formatted as head slice + truncation notice +
tail slice.  At the concrete input of 10001 spaces with exit code 0, the
blank-stdout check fires first: the observation is the `"(no output)"`
sentinel, not the truncated form. -/
theorem c8_sentinel_beats_truncation_cex :
    10000 < wsOut.Stdout.length ∧
    formatObservation wsOut = "(no output)".toList ∧
    formatObservation wsOut ≠ exitPrefix wsOut ++ truncatedForm wsOut := by
  have hblank : trimSpace wsOut.Stdout = [] := trimSpace_replicate_space 10001
  have hfmt : formatObservation wsOut = "(no output)".toList := by
    unfold formatObservation
    rw [if_pos ⟨hblank, rfl⟩]
  refine ⟨?_, hfmt, ?_⟩
  · rw [show wsOut.Stdout = List.replicate 10001 ' ' from rfl, List.length_replicate]
    omega
  · rw [hfmt]
    intro heq
    have hep : exitPrefix wsOut = [] := rfl
    rw [hep, List.nil_append] at heq
    have ht : truncatedForm wsOut =
        List.replicate 5000 ' ' ++ (truncNotice ++ List.replicate 5000 ' ') := by
      unfold truncatedForm
      rw [show wsOut.Stdout = List.replicate 10001 ' ' from rfl,
        List.take_replicate, List.drop_replicate, List.length_replicate]
      norm_num
    rw [ht] at heq
    have hh := congrArg List.head? heq
    rw [show List.replicate 5000 ' ' = ' ' :: List.replicate 4999 ' ' from rfl] at hh
    exact absurd hh (by decide)

/-- C8 (amended).  The `"(no output)"` sentinel applies to blank stdout
with exit code 0; *unless that sentinel case applies*, stdout longer than
the 10000-character budget is formatted as a 5000-character head slice,
the truncation notice, and a 5000-character tail slice (after the exit
code prefix when non-zero); formatting is a pure function, so the same
output always formats to the same text; and every non-zero exit code
prefixes the observation with `"[exit code: %d]"`. -/
theorem c8_format_observation_amended :
    (∀ o : Output, trimSpace o.Stdout = [] → o.ExitCode = 0 →
      formatObservation o = "(no output)".toList) ∧
    (∀ o : Output, 10000 < o.Stdout.length →
      ¬(trimSpace o.Stdout = [] ∧ o.ExitCode = 0) →
      formatObservation o = exitPrefix o ++ truncatedForm o) ∧
    (∀ o : Output, formatObservation o = formatObservation o) ∧
    (∀ o : Output, o.ExitCode ≠ 0 → ∃ rest,
      formatObservation o =
        "[exit code: ".toList ++ intDec o.ExitCode ++ "]\n".toList ++ rest) := by
  refine ⟨?_, ?_, fun o => rfl, ?_⟩
  · intro o h1 h2
    unfold formatObservation
    rw [if_pos ⟨h1, h2⟩]
  · intro o hlen hnot
    by_cases hec : o.ExitCode = 0
    · have hA : ¬ trimSpace o.Stdout = [] := fun h => hnot ⟨h, hec⟩
      simp [formatObservation, hA, hlen, exitPrefix, truncatedForm, hec]
    · simp [formatObservation, hlen, exitPrefix, truncatedForm, hec]
  · intro o hec
    have hnot : ¬(trimSpace o.Stdout = [] ∧ o.ExitCode = 0) := fun h => hec h.2
    by_cases hlen : 10000 < o.Stdout.length
    · exact ⟨o.Stdout.take 5000 ++ truncNotice ++ o.Stdout.drop (o.Stdout.length - 5000),
        by simp [formatObservation, hnot, hlen, hec]⟩
    · exact ⟨o.Stdout, by simp [formatObservation, hnot, hlen, hec]⟩

/-- C8 witness: the three amended cases at concrete outputs — blank stdout
with exit 0, an oversized stdout, and a failing exit code. -/
theorem c8_format_observation_amended_witness :
    formatObservation Output.zero = "(no output)".toList ∧
    formatObservation bigOut = exitPrefix bigOut ++ truncatedForm bigOut ∧
    (∃ rest, formatObservation exitErrOut =
      "[exit code: ".toList ++ intDec exitErrOut.ExitCode ++ "]\n".toList ++ rest) := by
  refine ⟨c8_format_observation_amended.1 Output.zero rfl rfl, ?_, ?_⟩
  · apply c8_format_observation_amended.2.1 bigOut
    · rw [show bigOut.Stdout = ('a' :: List.replicate 9999 'b') ++ ['c'] from rfl,
        List.length_append, List.length_cons, List.length_replicate]
      norm_num
    · intro h
      have h1 := h.1
      rw [show bigOut.Stdout = ('a' :: List.replicate 9999 'b') ++ ['c'] from rfl] at h1
      unfold trimSpace at h1
      rw [List.cons_append, trimLeft_cons_of_nonspace _ _ (by decide),
        ← List.cons_append,
        trimRight_append_nonspace _ _ (by decide)] at h1
      rw [List.cons_append] at h1
      exact List.cons_ne_nil _ _ h1
  · exact c8_format_observation_amended.2.2.2 exitErrOut (by decide)

/-- C7.  When parsing the model reply fails, `Step` returns the recoverable
format error and leaves the history exactly as it was — in particular no
assistant message is appended — and the only history change of that loop
round is the user-role feedback message built from the error, after which
the loop retries with one unit of budget consumed. -/
theorem c7_parse_failure_frame (p : Params) (msgs : List Message) (resp : Str)
    (e : ProcessErr) (hm : p.model msgs = .ok resp)
    (hp : p.parserFn resp = .error e) :
    step p msgs = (.error (.proc e), msgs) ∧
    ∀ (n : Nat) (last : Str) (q : Nat),
      runLoop p (n + 1) msgs last q =
        runLoop p n (msgs ++ [⟨RoleUser, e.message⟩]) last (q + 1) := by
  have hstep : step p msgs = (.error (.proc e), msgs) := by
    simp [step, hm, hp]
  exact ⟨hstep, fun n last q => by simp only [runLoop, hstep]⟩

/-- C7 witness: a fenceless reply at the empty history; the step leaves the
history empty and the round only adds the feedback message. -/
theorem c7_parse_failure_frame_witness :
    step wParamsNoFence [] = (.error (.proc ⟨.format, noCmdMsg⟩), []) ∧
    runLoop wParamsNoFence 1 [] [] 0 =
      runLoop wParamsNoFence 0 ([] ++ [⟨RoleUser, noCmdMsg⟩]) [] 1 := by
  have h := c7_parse_failure_frame wParamsNoFence [] noFenceResponse
    ⟨.format, noCmdMsg⟩ rfl rfl
  exact ⟨h.1, h.2 0 [] 0⟩

/-- C5.  A run that the deadline kills yields an `Output` carrying the
partially captured stdout/stderr with the timed-out flag set, paired with
a timeout-kind `ProcessErr` whose message embeds that partial output; and
the controller treats a `ProcessErr` from the environment as recoverable:
the round appends the assistant reply and the error's message as user
feedback and the loop continues with the next step. -/
theorem c5_timeout_recoverable :
    (∀ (e : BashExecutor) (act : Action) (proc : ProcResult),
      act.type = ActionTypeBash →
      validatorPasses e.validator act.command = true →
      proc.runErr = true →
      proc.deadlineExceeded = true →
      Execute e act proc =
        (⟨proc.stdout, proc.stderr, 0, true⟩,
          some (.proc ⟨.timeout, timeoutMsg e.timeout ⟨proc.stdout, proc.stderr, 0, true⟩⟩))) ∧
    (∀ (p : Params) (msgs : List Message) (resp : Str) (act : Action)
        (pe : ProcessErr) (n : Nat) (last : Str) (q : Nat),
      p.model msgs = .ok resp →
      p.parserFn resp = .ok act →
      p.handler = none →
      p.env act = .error (.proc pe) →
      runLoop p (n + 1) msgs last q =
        runLoop p n (msgs ++ [⟨RoleAssistant, resp⟩, ⟨RoleUser, pe.message⟩])
          last (q + 1)) := by
  constructor
  · intro e act proc hty hv hr hd
    cases hval : e.validator with
    | none => simp [Execute, hty, hval, execRun, hr, hd]
    | some pats =>
      have hnone : Validate pats act.command = none := by
        rw [hval] at hv
        simp only [validatorPasses] at hv
        exact Option.isNone_iff_eq_none.mp hv
      simp [Execute, hty, hval, hnone, execRun, hr, hd]
  · intro p msgs resp act pe n last q hm hp hh he
    have hstep : step p msgs =
        (.error (.proc pe), msgs ++ [⟨RoleAssistant, resp⟩]) := by
      simp [step, hm, hp, hh, stepExec, he]
    simp only [runLoop, hstep, List.append_assoc, List.singleton_append,
      List.cons_append, List.nil_append]

/-- C5 witness: a killed `sleep 60` with partial output, and one loop round
over an environment reporting a timeout. -/
theorem c5_timeout_recoverable_witness :
    Execute wExecutor ⟨ActionTypeBash, "sleep 60".toList⟩ timeoutProc =
      (⟨"partial out".toList, [], 0, true⟩,
        some (.proc ⟨.timeout,
          timeoutMsg ("30s".toList) ⟨"partial out".toList, [], 0, true⟩⟩)) ∧
    runLoop wParamsTimeout 1 [] [] 0 =
      runLoop wParamsTimeout 0
        [⟨RoleAssistant, fenceResponse⟩, ⟨RoleUser, "Command timed out".toList⟩]
        [] 1 := by
  constructor
  · exact c5_timeout_recoverable.1 wExecutor ⟨ActionTypeBash, "sleep 60".toList⟩
      timeoutProc rfl rfl rfl rfl
  · have h := c5_timeout_recoverable.2 wParamsTimeout [] fenceResponse
      ⟨ActionTypeBash, "sleep 60".toList⟩ ⟨.timeout, "Command timed out".toList⟩
      0 [] 0 rfl rfl rfl rfl
    simpa using h

/-- When no step terminates or fails fatally, the loop always runs its full
budget: `n` remaining steps make exactly `n` more model queries and end in
the step-limit signal, the returned value being the loop's tracked last
non-terminal step response. -/
theorem runLoop_stepLimit (p : Params)
    (h : ∀ msgs, stepNonTerminalB p msgs = true) :
    ∀ (n : Nat) (msgs : List Message) (last : Str) (q : Nat),
      ∃ v m, runLoop p n msgs last q = ⟨v, some (.term .stepLimit []), m, q + n⟩ := by
  intro n
  induction n with
  | zero =>
    intro msgs last q
    exact ⟨last, msgs, by simp [runLoop]⟩
  | succ n ih =>
    intro msgs last q
    have hs := h msgs
    unfold stepNonTerminalB at hs
    rcases hstep : step p msgs with ⟨r, msgs'⟩
    rw [hstep] at hs
    have harith : q + (n + 1) = (q + 1) + n := by omega
    cases r with
    | ok resp =>
      obtain ⟨v, m, hr⟩ := ih msgs' resp (q + 1)
      refine ⟨v, m, ?_⟩
      simp only [runLoop, hstep]
      rw [harith]
      exact hr
    | error ge =>
      cases ge with
      | term reason o => simp at hs
      | other m => simp at hs
      | proc e =>
        obtain ⟨v, m, hr⟩ := ih (msgs' ++ [⟨RoleUser, e.message⟩]) last (q + 1)
        refine ⟨v, m, ?_⟩
        simp only [runLoop, hstep]
        rw [harith]
        exact hr
      | exec e =>
        obtain ⟨v, m, hr⟩ := ih (msgs' ++ [⟨RoleUser, e.message⟩]) last (q + 1)
        refine ⟨v, m, ?_⟩
        simp only [runLoop, hstep]
        rw [harith]
        exact hr

/-- A non-erroring step always returns the empty string: on the
non-terminal path `handleOutput` returns `("", nil)` and `Step` passes
that value through. -/
theorem handleOutput_ok_empty (out : Output) (msgs : List Message) (r : Str)
    (h : (handleOutput out msgs).1 = .ok r) : r = [] := by
  unfold handleOutput at h
  split at h
  · simp at h
  · simp at h
    exact h

/-- The default-execution tail of a step returns the empty string on
success. -/
theorem stepExec_ok_empty (p : Params) (action : Action) (msgs1 : List Message)
    (r : Str) (h : (stepExec p action msgs1).1 = .ok r) : r = [] := by
  unfold stepExec at h
  split at h
  · simp at h
  · exact handleOutput_ok_empty _ _ _ h

/-- Every branch of a step that returns without error returns the empty
string. -/
theorem step_ok_empty (p : Params) (msgs : List Message) (r : Str)
    (h : (step p msgs).1 = .ok r) : r = [] := by
  unfold step at h
  split at h
  · simp at h
  · split at h
    · simp at h
    · split at h
      · split at h
        · simp at h
        · exact handleOutput_ok_empty _ _ _ h
        · exact stepExec_ok_empty _ _ _ _ h
      · exact stepExec_ok_empty _ _ _ _ h

/-- Starting the loop with an empty last response, steps that never
terminate keep it empty: the budget is consumed one query per step and the
result carries the empty string with the step-limit signal. -/
theorem runLoop_stepLimit_empty (p : Params)
    (h : ∀ msgs, stepNonTerminalB p msgs = true) :
    ∀ (n : Nat) (msgs : List Message) (q : Nat),
      ∃ m, runLoop p n msgs [] q = ⟨[], some (.term .stepLimit []), m, q + n⟩ := by
  intro n
  induction n with
  | zero =>
    intro msgs q
    exact ⟨msgs, by simp [runLoop]⟩
  | succ n ih =>
    intro msgs q
    have hs := h msgs
    unfold stepNonTerminalB at hs
    rcases hstep : step p msgs with ⟨rr, msgs'⟩
    rw [hstep] at hs
    have harith : q + (n + 1) = (q + 1) + n := by omega
    cases rr with
    | ok resp =>
      have hresp : resp = [] := step_ok_empty p msgs resp (by rw [hstep])
      obtain ⟨m, hr⟩ := ih msgs' (q + 1)
      refine ⟨m, ?_⟩
      simp only [runLoop, hstep]
      rw [hresp, harith]
      exact hr
    | error ge =>
      cases ge with
      | term reason o => simp at hs
      | other m => simp at hs
      | proc e =>
        obtain ⟨m, hr⟩ := ih (msgs' ++ [⟨RoleUser, e.message⟩]) (q + 1)
        refine ⟨m, ?_⟩
        simp only [runLoop, hstep]
        rw [harith]
        exact hr
      | exec e =>
        obtain ⟨m, hr⟩ := ih (msgs' ++ [⟨RoleUser, e.message⟩]) (q + 1)
        refine ⟨m, ?_⟩
        simp only [runLoop, hstep]
        rw [harith]
        exact hr

/-- C4 counterexample.  The claim says that at the step limit `Run`
returns "the last non-terminal response".  In `src/agent.go`, `Step`
returns `handleOutput`'s value and `handleOutput` returns `""` on every
non-terminal success, so `lastResponse` is always the empty string — the
model's reply is never returned.  Concretely: against a model that always
replies with the fence `fenceResponse` and an environment that never
completes, the single step of a one-step run is a non-terminal success
(returning `""`), and the run ends with the step-limit signal carrying the
value `""`, not the model's response `fenceResponse`. -/
theorem c4_last_response_cex :
    wParamsFence.model [⟨RoleSystem, "p".toList⟩, ⟨RoleUser, "t".toList⟩] =
      .ok fenceResponse ∧
    (step wParamsFence [⟨RoleSystem, "p".toList⟩, ⟨RoleUser, "t".toList⟩]).1 =
      .ok [] ∧
    (run wParamsFence 1 ("p".toList) ("t".toList)).err =
      some (.term .stepLimit []) ∧
    (run wParamsFence 1 ("p".toList) ("t".toList)).value = [] ∧
    fenceResponse ≠ [] :=
  ⟨rfl, rfl, rfl, rfl, by decide⟩

/-- C4 (amended).  Against oracles whose steps never produce a terminating
or fatal signal, `run` with budget `N` queries the model exactly `N` times
— the query counter of the result is exactly `N`, so no `(N+1)`-th query
happens — and then returns, together with the step-limit terminating
error, the last non-erroring step's return value, which in this
implementation is always the empty string (every non-error branch of a
step returns `""`), not the model's last reply; recoverable-error steps
consume budget like successful ones (both recurse in `runLoop`). -/
theorem c4_step_limit_amended (p : Params) (N : Nat) (sys task : Str)
    (h : ∀ msgs, stepNonTerminalB p msgs = true) :
    (∀ (msgs : List Message) (r : Str), (step p msgs).1 = .ok r → r = []) ∧
    ∃ m, run p N sys task = ⟨[], some (.term .stepLimit []), m, N⟩ := by
  refine ⟨fun msgs r => step_ok_empty p msgs r, ?_⟩
  obtain ⟨m, hr⟩ := runLoop_stepLimit_empty p h N
    [⟨RoleSystem, sys⟩, ⟨RoleUser, task⟩] 0
  rw [Nat.zero_add] at hr
  exact ⟨m, hr⟩

/-- C4 witness: with `maxSteps = 3` and a model that always replies with a
fence but never the completion marker, the run makes exactly 3 queries and
ends with the step-limit signal carrying the empty string. -/
theorem c4_step_limit_amended_witness :
    ∃ m, run wParamsFence 3 ("prompt".toList) ("task".toList) =
      ⟨[], some (.term .stepLimit []), m, 3⟩ :=
  (c4_step_limit_amended wParamsFence 3 ("prompt".toList) ("task".toList)
    (fun _ => rfl)).2

/-- C10.  `New` on the zero configuration substitutes every default: 25
steps, the built-in system prompt, the discarding sink, and the bash fence
parser — and an agent run from that configuration (against non-terminating
oracles) performs 25 steps, not zero. -/
theorem c10_new_defaults :
    (New zeroConfig).maxSteps = 25 ∧
    (New zeroConfig).systemPrompt = DefaultSystemPrompt ∧
    (New zeroConfig).output = some OutputSink.discard ∧
    (New zeroConfig).parser = some ParseAction ∧
    (∀ (model : List Message → Except Str Str)
        (env : Action → Except GoError Output) (task : Str),
      (∀ msgs, stepNonTerminalB ⟨ParseAction, none, model, env⟩ msgs = true) →
      ∃ v m, runWithConfig (New zeroConfig) model env task =
        ⟨v, some (.term .stepLimit []), m, 25⟩) := by
  refine ⟨rfl, rfl, rfl, rfl, ?_⟩
  intro model env task h
  obtain ⟨v, m, hr⟩ := runLoop_stepLimit ⟨ParseAction, none, model, env⟩ h 25
    [⟨RoleSystem, DefaultSystemPrompt⟩, ⟨RoleUser, task⟩] [] 0
  rw [Nat.zero_add] at hr
  exact ⟨v, m, hr⟩

/-- C10 witness: the defaults, and a 25-query run from the zero
configuration against a model that never parses. -/
theorem c10_new_defaults_witness :
    (New zeroConfig).maxSteps = 25 ∧
    (New zeroConfig).parser = some ParseAction ∧
    ∃ v m, runWithConfig (New zeroConfig)
        (fun _ => .ok noFenceResponse) (fun _ => .ok Output.zero) ("task".toList) =
      ⟨v, some (.term .stepLimit []), m, 25⟩ :=
  ⟨c10_new_defaults.1, c10_new_defaults.2.2.2.1,
    c10_new_defaults.2.2.2.2 (fun _ => .ok noFenceResponse)
      (fun _ => .ok Output.zero) ("task".toList) (fun _ => rfl)⟩

/-- `handleOutput` never removes or edits messages: the incoming history is
a prefix of the outgoing one. -/
theorem handleOutput_ext (out : Output) (msgs : List Message) :
    msgs <+: (handleOutput out msgs).2 := by
  unfold handleOutput
  split
  · exact List.prefix_rfl
  · exact List.prefix_append _ _

/-- The default-execution tail of a step only appends messages. -/
theorem stepExec_ext (p : Params) (action : Action) (msgs1 : List Message) :
    msgs1 <+: (stepExec p action msgs1).2 := by
  unfold stepExec
  split
  · exact List.prefix_rfl
  · exact handleOutput_ext _ _

/-- A step only appends messages. -/
theorem step_ext (p : Params) (msgs : List Message) :
    msgs <+: (step p msgs).2 := by
  unfold step
  split
  · exact List.prefix_rfl
  · split
    · exact List.prefix_rfl
    · split
      · split
        · exact List.prefix_append _ _
        · exact (List.prefix_append _ _).trans (handleOutput_ext _ _)
        · exact (List.prefix_append _ _).trans (stepExec_ext _ _ _)
      · exact (List.prefix_append _ _).trans (stepExec_ext _ _ _)

/-- The loop only appends messages. -/
theorem runLoop_ext (p : Params) :
    ∀ (n : Nat) (msgs : List Message) (last : Str) (q : Nat),
      msgs <+: (runLoop p n msgs last q).messages := by
  intro n
  induction n with
  | zero =>
    intro msgs last q
    exact List.prefix_rfl
  | succ n ih =>
    intro msgs last q
    have hext := step_ext p msgs
    rcases hstep : step p msgs with ⟨r, msgs'⟩
    rw [hstep] at hext
    cases r with
    | ok resp =>
      simp only [runLoop, hstep]
      exact hext.trans (ih msgs' resp (q + 1))
    | error ge =>
      cases ge with
      | term reason o => simpa only [runLoop, hstep] using hext
      | other m => simpa only [runLoop, hstep] using hext
      | proc e =>
        simp only [runLoop, hstep]
        exact (hext.trans (List.prefix_append _ _)).trans
          (ih (msgs' ++ [⟨RoleUser, e.message⟩]) last (q + 1))
      | exec e =>
        simp only [runLoop, hstep]
        exact (hext.trans (List.prefix_append _ _)).trans
          (ih (msgs' ++ [⟨RoleUser, e.message⟩]) last (q + 1))

/-- C6.  The conversation history is append-only: a run's final history
extends the freshly initialised `[system prompt, task]` pair (which `run`
sets once, in that order), and neither a step nor any number of loop
iterations ever removes or edits an existing message — the incoming
history is always a prefix of the outgoing one. -/
theorem c6_append_only (p : Params) (N : Nat) (sys task : Str) :
    ([⟨RoleSystem, sys⟩, ⟨RoleUser, task⟩] <+: (run p N sys task).messages) ∧
    (∀ msgs, msgs <+: (step p msgs).2) ∧
    (∀ (n : Nat) (msgs : List Message) (last : Str) (q : Nat),
      msgs <+: (runLoop p n msgs last q).messages) :=
  ⟨runLoop_ext p N [⟨RoleSystem, sys⟩, ⟨RoleUser, task⟩] [] 0,
    step_ext p, runLoop_ext p⟩

/-- C6 witness: the initial two messages survive as the head of the final
history in a concrete 2-step run, and a concrete step only appends. -/
theorem c6_append_only_witness :
    ([⟨RoleSystem, "prompt".toList⟩, ⟨RoleUser, "task".toList⟩] <+:
      (run wParamsNoFence 2 ("prompt".toList) ("task".toList)).messages) ∧
    ([⟨RoleSystem, "prompt".toList⟩] <+:
      (step wParamsNoFence [⟨RoleSystem, "prompt".toList⟩]).2) :=
  ⟨(c6_append_only wParamsNoFence 2 ("prompt".toList) ("task".toList)).1,
    (c6_append_only wParamsNoFence 2 ("prompt".toList) ("task".toList)).2.1
      [⟨RoleSystem, "prompt".toList⟩]⟩

/-- `splitOnceNl` decomposes a string as its newline-free first line
followed, when a newline exists, by that newline and the remainder. -/
theorem splitOnceNl_decomp (s : Str) :
    '\n' ∉ (splitOnceNl s).1 ∧
    s = (splitOnceNl s).1 ++
      (match (splitOnceNl s).2 with | some r => '\n' :: r | none => []) := by
  induction s with
  | nil => exact ⟨List.not_mem_nil '\n', rfl⟩
  | cons c cs ih =>
    by_cases hc : c = '\n'
    · subst hc
      simp [splitOnceNl]
    · obtain ⟨ih1, ih2⟩ := ih
      simp only [splitOnceNl, hc, if_false, if_neg]
      refine ⟨?_, ?_⟩
      · intro hmem
        rcases List.mem_cons.mp hmem with h | h
        · exact hc h.symm
        · exact ih1 h
      · rw [List.cons_append]
        exact congrArg (c :: ·) ih2

/-- The completion marker written as an explicit cons. -/
theorem marker_cons : completionMarker = 'T' :: "ASK_COMPLETE".toList := rfl

/-- The completion marker contains no newline. -/
theorem marker_no_nl : '\n' ∉ completionMarker := by decide

/-- `trimLeft` does not touch a string that starts with the marker. -/
theorem trimLeft_marker_append (t : Str) :
    trimLeft (completionMarker ++ t) = completionMarker ++ t := by
  rw [marker_cons, List.cons_append]
  exact trimLeft_cons_of_nonspace _ _ (by decide)

/-- `dropWhile` over the reversed marker is the identity (it ends in a
non-space character). -/
theorem dropWhile_rev_marker :
    List.dropWhile goIsSpace completionMarker.reverse = completionMarker.reverse := by
  decide

/-- `trimRight` distributes over a leading marker. -/
theorem trimRight_marker_append (t : Str) :
    trimRight (completionMarker ++ t) = completionMarker ++ trimRight t := by
  unfold trimRight
  rw [List.reverse_append, List.dropWhile_append]
  by_cases h : (List.dropWhile goIsSpace t.reverse).isEmpty
  · rw [if_pos h, dropWhile_rev_marker, List.reverse_reverse,
      List.isEmpty_iff.mp h, List.reverse_nil, List.append_nil]
  · rw [if_neg h, List.reverse_append, List.reverse_reverse]

/-- `trimRight` of a string starting with a newline either vanishes or
still starts with that newline. -/
theorem trimRight_nl_shape (r : Str) :
    trimRight ('\n' :: r) = [] ∨ ∃ r', trimRight ('\n' :: r) = '\n' :: r' := by
  unfold trimRight
  rw [show ('\n' :: r).reverse = r.reverse ++ ['\n'] from by
    rw [List.reverse_cons]]
  rw [List.dropWhile_append]
  by_cases h : (List.dropWhile goIsSpace r.reverse).isEmpty
  · left
    rw [if_pos h, show List.dropWhile goIsSpace ['\n'] = [] from by decide,
      List.reverse_nil]
  · right
    rw [if_neg h, List.reverse_append]
    exact ⟨(List.dropWhile goIsSpace r.reverse).reverse, rfl⟩

/-- `splitOnceNl` passes over a newline-free head. -/
theorem splitOnceNl_append_no_nl (a b : Str) (ha : '\n' ∉ a) :
    splitOnceNl (a ++ b) = (a ++ (splitOnceNl b).1, (splitOnceNl b).2) := by
  induction a with
  | nil => simp
  | cons c cs ih =>
    have hc : ¬ c = '\n' := fun h => ha (h ▸ List.mem_cons_self c cs)
    rw [List.cons_append]
    simp only [splitOnceNl, hc, if_false, if_neg]
    rw [ih fun h => ha (List.mem_cons_of_mem c h)]
    rw [List.cons_append]

/-- If the first line of the raw stdout is exactly the completion marker,
the code's own check (trim, take the first line, trim again, compare)
accepts it. -/
theorem isTaskComplete_of_firstLine (out : Output)
    (h : firstLine out.Stdout = completionMarker) : isTaskComplete out = true := by
  obtain ⟨hnl, hdec⟩ := splitOnceNl_decomp out.Stdout
  unfold firstLine at h
  rw [h] at hdec
  cases hsnd : (splitOnceNl out.Stdout).2 with
  | none =>
    rw [hsnd] at hdec
    unfold isTaskComplete
    rw [hdec]
    decide
  | some r =>
    rw [hsnd] at hdec
    unfold isTaskComplete
    rw [hdec]
    have ht : trimSpace (completionMarker ++ '\n' :: r) =
        completionMarker ++ trimRight ('\n' :: r) := by
      unfold trimSpace
      rw [trimLeft_marker_append, trimRight_marker_append]
    rw [ht]
    rcases trimRight_nl_shape r with h0 | ⟨r', hr'⟩
    · rw [h0]
      decide
    · rw [hr']
      rw [show firstLine (completionMarker ++ '\n' :: r') = completionMarker from by
        unfold firstLine
        rw [splitOnceNl_append_no_nl _ _ marker_no_nl]
        simp [splitOnceNl]]
      decide

/-- C1.  For an output whose first stdout line is exactly the completion
marker, `handleOutput` terminates the loop with reason complete and final
output equal to everything after that first line, trimmed, leaving the
history untouched; and a loop round whose execution produces that output
returns the final output with a nil error, the round's only appended
message being the assistant reply (the completion output itself is never
appended). -/
theorem c1_complete_marker (out : Output) (msgs : List Message)
    (h : firstLine out.Stdout = completionMarker) :
    handleOutput out msgs =
      (.error (.term .complete (extractFinalOutput out)), msgs) ∧
    extractFinalOutput out = trimSpace (lineRest out.Stdout) ∧
    (∀ (p : Params) (resp : Str) (act : Action) (n : Nat) (last : Str) (q : Nat),
      p.model msgs = .ok resp →
      p.parserFn resp = .ok act →
      p.handler = none →
      p.env act = .ok out →
      runLoop p (n + 1) msgs last q =
        ⟨extractFinalOutput out, none, msgs ++ [⟨RoleAssistant, resp⟩], q + 1⟩) := by
  have htc := isTaskComplete_of_firstLine out h
  have hh : ∀ ms, handleOutput out ms =
      (.error (.term .complete (extractFinalOutput out)), ms) := fun ms => by
    simp [handleOutput, htc]
  refine ⟨hh msgs, ?_, ?_⟩
  · unfold extractFinalOutput lineRest
    cases hs : (splitOnceNl out.Stdout).2 with
    | none => rfl
    | some r => rfl
  · intro p resp act n last q hm hp hhnd he
    have hstep : step p msgs =
        (.error (.term .complete (extractFinalOutput out)),
          msgs ++ [⟨RoleAssistant, resp⟩]) := by
      simp [step, hm, hp, hhnd, stepExec, he, hh]
    simp only [runLoop, hstep]

/-- C1 witness: the stdout produced by `echo "TASK_COMPLETE"` followed by
`echo "Summary: X"` terminates with reason complete and final output
exactly "Summary: X", with the history unchanged. -/
theorem c1_complete_marker_witness :
    firstLine completeOut.Stdout = completionMarker ∧
    handleOutput completeOut [] =
      (.error (.term .complete (extractFinalOutput completeOut)), []) ∧
    extractFinalOutput completeOut = trimSpace (lineRest completeOut.Stdout) ∧
    extractFinalOutput completeOut = "Summary: X".toList :=
  ⟨by decide, (c1_complete_marker completeOut [] (by decide)).1,
    (c1_complete_marker completeOut [] (by decide)).2.1, by decide⟩

end Wise
